import Mathlib

/-!
Verification of the Mamdani fuzzy-logic fan controller (`src/main.rs`).

The inference core of the program is pure arithmetic over `f64`: membership
functions, fuzzification, rule firing and centroid defuzzification.  We embed
it shallowly over `ℚ` (exact arithmetic), translating each Rust function into
a Lean definition with the same name and the same branch structure.
-/

namespace FuzzyFan

/-- Trapezoidal membership function, from `trapezoidal` in `src/main.rs`:
returns 0 outside `(a, d)`, 1 on `[b, c]`, and linear ramps in between. -/
def trapezoidal (x a b c d : ℚ) : ℚ :=
  if x ≤ a ∨ x ≥ d then 0
  else if x ≥ b ∧ x ≤ c then 1
  else if x > a ∧ x < b then (x - a) / (b - a)
  else (d - x) / (d - c)

/-- Triangular membership function, from `triangular` in `src/main.rs`:
returns 0 outside `(a, c)`, 1 at `b`, and linear ramps in between. -/
def triangular (x a b c : ℚ) : ℚ :=
  if x ≤ a ∨ x ≥ c then 0
  else if x = b then 1
  else if x > a ∧ x < b then (x - a) / (b - a)
  else (c - x) / (c - b)

/-- A named fuzzy set together with a membership degree, from `struct FuzzySet`. -/
structure FuzzySet where
  name : String
  membership : ℚ
deriving DecidableEq

/-- Temperature fuzzification (`fuzzify_temperature`): Cold, Mild, Hot. -/
def fuzzify_temperature (temp : ℚ) : List FuzzySet :=
  [ ⟨"Cold", trapezoidal temp 0 0 15 20⟩,
    ⟨"Mild", triangular temp 15 22.5 30⟩,
    ⟨"Hot", trapezoidal temp 25 30 50 50⟩ ]

/-- Humidity fuzzification (`fuzzify_humidity`): Low, Medium, High. -/
def fuzzify_humidity (humidity : ℚ) : List FuzzySet :=
  [ ⟨"Low", trapezoidal humidity 0 0 30 50⟩,
    ⟨"Medium", triangular humidity 30 50 70⟩,
    ⟨"High", trapezoidal humidity 50 70 100 100⟩ ]

/-- Fan-speed output sets (`fan_speed_sets`): name with triangular parameters. -/
def fan_speed_sets : List (String × ℚ × ℚ × ℚ) :=
  [ ("Off", 0, 0, 20),
    ("Low", 0, 25, 50),
    ("Medium", 25, 50, 75),
    ("High", 50, 100, 100) ]

/-- A fuzzy rule (`struct FuzzyRule`): IF temp IS _ AND humidity IS _ THEN fan IS _. -/
structure FuzzyRule where
  temp_condition : String
  humidity_condition : String
  fan_speed_output : String
deriving DecidableEq

/-- The fixed 9-rule base (`create_rules`), in source order. -/
def create_rules : List FuzzyRule :=
  [ ⟨"Cold", "Low", "Off"⟩,
    ⟨"Cold", "Medium", "Off"⟩,
    ⟨"Cold", "High", "Low"⟩,
    ⟨"Mild", "Low", "Low"⟩,
    ⟨"Mild", "Medium", "Medium"⟩,
    ⟨"Mild", "High", "Medium"⟩,
    ⟨"Hot", "Low", "Medium"⟩,
    ⟨"Hot", "Medium", "High"⟩,
    ⟨"Hot", "High", "High"⟩ ]

/-- Degree lookup used inside `apply_rules`: the Rust chain
`sets.iter().find(..).map(|s| s.membership).unwrap_or(0.0)`. -/
def lookup_membership (sets : List FuzzySet) (label : String) : ℚ :=
  ((sets.find? (fun s => s.name == label)).map FuzzySet.membership).getD 0

/-- The strength of one rule against the two fuzzification results:
`min(temp degree, humidity degree)`, from the body of the `apply_rules` loop. -/
def rule_strength (temp_sets humidity_sets : List FuzzySet) (rule : FuzzyRule) : ℚ :=
  min (lookup_membership temp_sets rule.temp_condition)
    (lookup_membership humidity_sets rule.humidity_condition)

/-- One iteration of the `apply_rules` loop: push `(output label, strength)`
onto the accumulator when the strength is strictly positive. -/
def rule_step (temp_sets humidity_sets : List FuzzySet)
    (acc : List (String × ℚ)) (rule : FuzzyRule) : List (String × ℚ) :=
  if rule_strength temp_sets humidity_sets rule > 0 then
    acc ++ [(rule.fan_speed_output, rule_strength temp_sets humidity_sets rule)]
  else acc

/-- Rule firing (`apply_rules`): fold over the rules in order, pushing
`(output label, min-strength)` whenever the strength is strictly positive. -/
def apply_rules (temp_sets humidity_sets : List FuzzySet)
    (rules : List FuzzyRule) : List (String × ℚ) :=
  rules.foldl (rule_step temp_sets humidity_sets) []

/-- One iteration of the inner `defuzzify` loop at sample point `x`:
take the max of the accumulator with `min(rule strength, consequent membership)`,
skipping pairs whose name is absent from `fan_speed_sets`. -/
def aggregate_step (x : ℚ) (acc : ℚ) (p : String × ℚ) : ℚ :=
  match fan_speed_sets.find? (fun q => q.1 == p.1) with
  | some (_, a, b, c) => max acc (min p.2 (triangular x a b c))
  | none => acc

/-- The inner loop of `defuzzify` at one sample point: max over the fired pairs of
`min(rule strength, consequent membership)` (`max_membership` in the source). -/
def aggregate_membership (output_memberships : List (String × ℚ)) (x : ℚ) : ℚ :=
  output_memberships.foldl (aggregate_step x) 0

/-- The fixed sample resolution of `defuzzify` (`let resolution = 100`). -/
def resolution : ℕ := 100

/-- The 101 sample points of `defuzzify`: `x = (i / resolution) * 100.0`
for `i` in `0..=resolution`. -/
def samplePoints : List ℚ :=
  (List.range (resolution + 1)).map (fun (i : ℕ) => ((i : ℚ) / (resolution : ℚ)) * 100)

/-- The `numerator` accumulator of `defuzzify`. -/
def defuzz_numerator (output_memberships : List (String × ℚ)) : ℚ :=
  (samplePoints.map (fun x => x * aggregate_membership output_memberships x)).sum

/-- The `denominator` accumulator of `defuzzify`. -/
def defuzz_denominator (output_memberships : List (String × ℚ)) : ℚ :=
  (samplePoints.map (fun x => aggregate_membership output_memberships x)).sum

/-- Center-of-area defuzzification (`defuzzify`), with the exact-zero
denominator fallback of the source. -/
def defuzzify (output_memberships : List (String × ℚ)) : ℚ :=
  if defuzz_denominator output_memberships = 0 then 0
  else defuzz_numerator output_memberships / defuzz_denominator output_memberships

/-- Membership of the named fan-speed set at `x`, written after the words of
spec §4.4 ("look up that label's shape and evaluate its membership at x");
the four sets are fixed, and a name with no set contributes membership 0. -/
def fan_set_membership (label : String) (x : ℚ) : ℚ :=
  match fan_speed_sets.find? (fun q => q.1 == label) with
  | some (_, a, b, c) => triangular x a b c
  | none => 0

/-- Aggregated membership at `x`, written after the words of spec §4.4:
the maximum over all pairs of `min(strength, set membership at x)`,
0 when no pairs exist. -/
def aggregate_membership_spec (pairs : List (String × ℚ)) (x : ℚ) : ℚ :=
  pairs.foldl (fun acc p => max acc (min p.2 (fan_set_membership p.1 x))) 0

/-- Reference defuzzification, written after the words of spec §4.4 and C6:
sample points x = 0, 1, ..., 100; result = Σ x·agg(x) / Σ agg(x), with the
stated 0 fallback when the denominator is exactly 0. -/
def defuzzify_spec (pairs : List (String × ℚ)) : ℚ :=
  let pts := (List.range 101).map (fun (i : ℕ) => (i : ℚ))
  let numerator := (pts.map (fun x => x * aggregate_membership_spec pairs x)).sum
  let denominator := (pts.map (fun x => aggregate_membership_spec pairs x)).sum
  if denominator = 0 then 0 else numerator / denominator

/-- The controller (`struct FuzzyController`), holding the rule base. -/
structure FuzzyController where
  rules : List FuzzyRule

/-- Controller construction (`FuzzyController::new`). -/
def FuzzyController.new : FuzzyController := ⟨create_rules⟩

/-- The `compute` entry point: fuzzify, fire the rules, defuzzify. -/
def FuzzyController.compute (ctrl : FuzzyController) (temperature humidity : ℚ) : ℚ :=
  defuzzify (apply_rules (fuzzify_temperature temperature) (fuzzify_humidity humidity)
    ctrl.rules)

/-!
Helper lemmas about the membership primitives and the defuzzification sums.
-/

/-- Both membership shapes only ever produce nonnegative degrees: each branch of
`triangular` is either a constant in `{0, 1}` or a ratio of positives. -/
theorem triangular_nonneg (x a b c : ℚ) : 0 ≤ triangular x a b c := by
  unfold triangular
  split_ifs with h1 h2 h3
  · norm_num
  · norm_num
  · have := h3.1
    have := h3.2
    apply div_nonneg <;> linarith
  · push_neg at h1 h3
    have hax : a < x := h1.1
    have hxc : x < c := h1.2
    have hbx : b ≤ x := h3 hax
    apply div_nonneg <;> linarith

/-- Degrees from `triangular` never exceed 1. -/
theorem triangular_le_one (x a b c : ℚ) : triangular x a b c ≤ 1 := by
  unfold triangular
  split_ifs with h1 h2 h3
  · norm_num
  · norm_num
  · have hax := h3.1
    have hxb := h3.2
    rw [div_le_one (by linarith)]
    linarith
  · push_neg at h1 h3
    have hax : a < x := h1.1
    have hxc : x < c := h1.2
    have hbx : b ≤ x := h3 hax
    rw [div_le_one (by linarith)]
    linarith

/-- Degrees from `trapezoidal` are nonnegative. -/
theorem trapezoidal_nonneg (x a b c d : ℚ) : 0 ≤ trapezoidal x a b c d := by
  unfold trapezoidal
  split_ifs with h1 h2 h3
  · norm_num
  · norm_num
  · have := h3.1
    have := h3.2
    apply div_nonneg <;> linarith
  · push_neg at h1 h2 h3
    have hax : a < x := h1.1
    have hxd : x < d := h1.2
    have hbx : b ≤ x := h3 hax
    have hcx : c < x := h2 hbx
    apply div_nonneg <;> linarith

/-- Degrees from `trapezoidal` never exceed 1. -/
theorem trapezoidal_le_one (x a b c d : ℚ) : trapezoidal x a b c d ≤ 1 := by
  unfold trapezoidal
  split_ifs with h1 h2 h3
  · norm_num
  · norm_num
  · have hax := h3.1
    have hxb := h3.2
    rw [div_le_one (by linarith)]
    linarith
  · push_neg at h1 h2 h3
    have hax : a < x := h1.1
    have hxd : x < d := h1.2
    have hbx : b ≤ x := h3 hax
    have hcx : c < x := h2 hbx
    rw [div_le_one (by linarith)]
    linarith

/-- One aggregation step never decreases the accumulator. -/
theorem le_aggregate_step (x acc : ℚ) (p : String × ℚ) : acc ≤ aggregate_step x acc p := by
  unfold aggregate_step
  split
  · exact le_max_left _ _
  · exact le_rfl

/-- One aggregation step keeps the accumulator nonnegative. -/
theorem aggregate_step_nonneg (x acc : ℚ) (p : String × ℚ) (h : 0 ≤ acc) :
    0 ≤ aggregate_step x acc p :=
  le_trans h (le_aggregate_step x acc p)

/-- The aggregation fold keeps a nonnegative accumulator nonnegative. -/
theorem foldl_aggregate_nonneg (l : List (String × ℚ)) (x acc : ℚ) (h : 0 ≤ acc) :
    0 ≤ l.foldl (aggregate_step x) acc := by
  induction l generalizing acc with
  | nil => exact h
  | cons p rest ih => exact ih _ (aggregate_step_nonneg x acc p h)

/-- The aggregated membership at every sample point is nonnegative. -/
theorem aggregate_membership_nonneg (l : List (String × ℚ)) (x : ℚ) :
    0 ≤ aggregate_membership l x :=
  foldl_aggregate_nonneg l x 0 le_rfl

/-- The source's sample points `(i / 100) * 100` are exactly `0, 1, ..., 100`. -/
theorem samplePoints_eq : samplePoints = (List.range 101).map (fun (i : ℕ) => (i : ℚ)) := by
  unfold samplePoints resolution
  refine List.map_congr_left (fun i _ => ?_)
  push_cast
  rw [div_mul_cancel₀]
  norm_num

/-- Every sample point lies in `[0, 100]`. -/
theorem samplePoints_mem_bounds (x : ℚ) (hx : x ∈ samplePoints) : 0 ≤ x ∧ x ≤ 100 := by
  rw [samplePoints_eq] at hx
  obtain ⟨i, hi, rfl⟩ := List.mem_map.mp hx
  have hilt : i < 101 := List.mem_range.mp hi
  have hile : i ≤ 100 := by omega
  refine ⟨by positivity, ?_⟩
  exact_mod_cast hile

/-- The defuzzification denominator is a sum of nonnegative terms. -/
theorem defuzz_denominator_nonneg (l : List (String × ℚ)) : 0 ≤ defuzz_denominator l := by
  unfold defuzz_denominator
  apply List.sum_nonneg
  intro q hq
  simp only [List.mem_map] at hq
  obtain ⟨x, hx, rfl⟩ := hq
  exact aggregate_membership_nonneg l x

/-- The defuzzification numerator is a sum of nonnegative terms. -/
theorem defuzz_numerator_nonneg (l : List (String × ℚ)) : 0 ≤ defuzz_numerator l := by
  unfold defuzz_numerator
  apply List.sum_nonneg
  intro q hq
  simp only [List.mem_map] at hq
  obtain ⟨x, hx, rfl⟩ := hq
  exact mul_nonneg (samplePoints_mem_bounds x hx).1 (aggregate_membership_nonneg l x)

/-- The numerator is at most 100 times the denominator, since every sample
point is at most 100. -/
theorem defuzz_numerator_le (l : List (String × ℚ)) :
    defuzz_numerator l ≤ 100 * defuzz_denominator l := by
  unfold defuzz_numerator defuzz_denominator
  rw [← List.sum_map_mul_left]
  apply List.sum_le_sum
  intro x hx
  exact mul_le_mul_of_nonneg_right (samplePoints_mem_bounds x hx).2
    (aggregate_membership_nonneg l x)

/-- The defuzzified output is never negative. -/
theorem defuzzify_nonneg (l : List (String × ℚ)) : 0 ≤ defuzzify l := by
  unfold defuzzify
  split_ifs with h
  · norm_num
  · exact div_nonneg (defuzz_numerator_nonneg l) (defuzz_denominator_nonneg l)

/-- The defuzzified output never exceeds 100. -/
theorem defuzzify_le (l : List (String × ℚ)) : defuzzify l ≤ 100 := by
  unfold defuzzify
  split_ifs with h
  · norm_num
  · have hpos : 0 < defuzz_denominator l :=
      lt_of_le_of_ne (defuzz_denominator_nonneg l) (Ne.symm h)
    rw [div_le_iff₀ hpos]
    linarith [defuzz_numerator_le l]

/-- The empty firing result aggregates to 0 everywhere. -/
theorem aggregate_membership_nil (x : ℚ) : aggregate_membership [] x = 0 := rfl

/-- The empty firing result gives denominator 0. -/
theorem defuzz_denominator_nil : defuzz_denominator [] = 0 := by
  unfold defuzz_denominator
  simp [aggregate_membership_nil]

/-- Defuzzifying the empty firing result yields 0. -/
theorem defuzzify_nil : defuzzify [] = 0 := by
  unfold defuzzify
  rw [if_pos defuzz_denominator_nil]

/-!
Claim theorems.
-/

/-- C1 counterexample: at temperature 0 the Cold degree is 0, not the claimed 1
(the `x == a` branch of the degenerate trapezoid `(0,0,15,20)` wins), likewise
the Low humidity degree at 0, and consequently no rule at all fires at
`(0, 0)` — the claim's "exactly one rule fires with strength 1.0" is false. -/
theorem C1_counterexample :
    trapezoidal 0 0 0 15 20 = 0 ∧
    (fuzzify_temperature 0).map FuzzySet.membership = [0, 0, 0] ∧
    (fuzzify_humidity 0).map FuzzySet.membership = [0, 0, 0] ∧
    apply_rules (fuzzify_temperature 0) (fuzzify_humidity 0) create_rules = [] := by
  exact ⟨by decide, by decide, by decide, by decide⟩

/-- C1 (amended): for temperature 0 and humidity 0 every fuzzified degree is
exactly 0 (the inputs sit on the `x == a` zero boundary of their trapezoids),
the firing result is empty, and `compute 0 0` returns exactly 0 through the
zero-denominator fallback of `defuzzify`. -/
theorem C1_compute_at_origin :
    (fuzzify_temperature 0).map FuzzySet.membership = [0, 0, 0] ∧
    (fuzzify_humidity 0).map FuzzySet.membership = [0, 0, 0] ∧
    apply_rules (fuzzify_temperature 0) (fuzzify_humidity 0) create_rules = [] ∧
    FuzzyController.new.compute 0 0 = 0 := by
  have hfire : apply_rules (fuzzify_temperature 0) (fuzzify_humidity 0) create_rules = [] := by
    decide
  refine ⟨by decide, by decide, hfire, ?_⟩
  show defuzzify (apply_rules (fuzzify_temperature 0) (fuzzify_humidity 0) create_rules) = 0
  rw [hfire]
  exact defuzzify_nil

/-- C2 counterexample: the claim's boundary policy contradicts itself on the
degenerate shapes its parenthetical includes.  For the Cold trapezoid
`(a,b,c,d) = (0,0,15,20)` at `x = 0` we have `x = a` and `x = b` at once, and
the code returns 0, not the 1 the claim requires at `x = b`; the degenerate
triangular High set `(50,100,100)` at `x = b = c = 100` likewise returns 0. -/
theorem C2_counterexample :
    trapezoidal 0 0 0 15 20 = 0 ∧ ¬ trapezoidal 0 0 0 15 20 = 1 ∧
    triangular 100 50 100 100 = 0 ∧ ¬ triangular 100 50 100 100 = 1 := by
  exact ⟨by decide, by decide, by decide, by decide⟩

/-- C2 (amended): for `a ≤ b ≤ c ≤ d` the zero boundaries always hold —
`trapezoidal` is exactly 0 at `x = a` and at `x = d`, `triangular` exactly 0 at
`x = a` and at `x = c` — and a plateau boundary yields exactly 1 whenever it
does not coincide with a zero boundary: `trapezoidal` is 1 at `x = b` when
`a < b` and `b < d`, and at `x = c` when `a < c` and `c < d`; `triangular` is 1
at `x = b` when `a < b` and `b < c`.  In the degenerate shapes the zero
boundary takes precedence. -/
theorem C2_boundary_policy :
    (∀ x a b c d : ℚ, a ≤ b → b ≤ c → c ≤ d →
      ((x = a ∨ x = d) → trapezoidal x a b c d = 0) ∧
      (x = b → a < b → b < d → trapezoidal x a b c d = 1) ∧
      (x = c → a < c → c < d → trapezoidal x a b c d = 1)) ∧
    (∀ x a b c : ℚ, a ≤ b → b ≤ c →
      ((x = a ∨ x = c) → triangular x a b c = 0) ∧
      (x = b → a < b → b < c → triangular x a b c = 1)) := by
  constructor
  · intro x a b c d hab hbc hcd
    refine ⟨?_, ?_, ?_⟩
    · rintro (rfl | rfl)
      · unfold trapezoidal
        rw [if_pos (Or.inl le_rfl)]
      · unfold trapezoidal
        rw [if_pos (Or.inr le_rfl)]
    · rintro rfl h1 h2
      unfold trapezoidal
      rw [if_neg (by push_neg; exact ⟨h1, h2⟩), if_pos ⟨le_rfl, hbc⟩]
    · rintro rfl h1 h2
      unfold trapezoidal
      rw [if_neg (by push_neg; exact ⟨h1, h2⟩), if_pos ⟨hbc, le_rfl⟩]
  · intro x a b c hab hbc
    refine ⟨?_, ?_⟩
    · rintro (rfl | rfl)
      · unfold triangular
        rw [if_pos (Or.inl le_rfl)]
      · unfold triangular
        rw [if_pos (Or.inr le_rfl)]
    · rintro rfl h1 h2
      unfold triangular
      rw [if_neg (by push_neg; exact ⟨h1, h2⟩), if_pos rfl]

/-- C2 (witness): the amended boundary policy evaluated on the concrete shape
`(0, 5, 10, 15)` and the concrete triangle `(0, 5, 10)`. -/
theorem C2_boundary_policy_witness :
    trapezoidal 0 0 5 10 15 = 0 ∧ trapezoidal 5 0 5 10 15 = 1 ∧
    trapezoidal 10 0 5 10 15 = 1 ∧ triangular 0 0 5 10 = 0 ∧
    triangular 5 0 5 10 = 1 := by
  refine ⟨?_, ?_, ?_, ?_, ?_⟩
  · exact (C2_boundary_policy.1 0 0 5 10 15 (by norm_num) (by norm_num)
      (by norm_num)).1 (Or.inl rfl)
  · exact (C2_boundary_policy.1 5 0 5 10 15 (by norm_num) (by norm_num)
      (by norm_num)).2.1 rfl (by norm_num) (by norm_num)
  · exact (C2_boundary_policy.1 10 0 5 10 15 (by norm_num) (by norm_num)
      (by norm_num)).2.2 rfl (by norm_num) (by norm_num)
  · exact (C2_boundary_policy.2 0 0 5 10 (by norm_num) (by norm_num)).1 (Or.inl rfl)
  · exact (C2_boundary_policy.2 5 0 5 10 (by norm_num) (by norm_num)).2 rfl
      (by norm_num) (by norm_num)

/-- C3: the degenerate Hot trapezoid `(25, 30, 50, 50)` evaluated at
`x = 50 = c = d` returns exactly 0 — the `x ≥ d` zero branch applies even
though the falling ramp is degenerate — so fuzzifying temperature 50 gives
Hot degree 0. -/
theorem C3_hot_upper_boundary :
    trapezoidal 50 25 30 50 50 = 0 ∧
    lookup_membership (fuzzify_temperature 50) "Hot" = 0 := by
  exact ⟨by decide, by decide⟩

/-- C4: whenever the defuzzification denominator is exactly 0, `defuzzify`
returns exactly 0 (the explicit fallback branch), and whenever no rule fires
with positive strength, `compute` returns exactly 0. -/
theorem C4_zero_denominator_fallback :
    (∀ l : List (String × ℚ), defuzz_denominator l = 0 → defuzzify l = 0) ∧
    (∀ t h : ℚ,
      apply_rules (fuzzify_temperature t) (fuzzify_humidity h) create_rules = [] →
      FuzzyController.new.compute t h = 0) := by
  constructor
  · intro l hl
    unfold defuzzify
    rw [if_pos hl]
  · intro t h hfire
    show defuzzify (apply_rules (fuzzify_temperature t) (fuzzify_humidity h) create_rules) = 0
    rw [hfire]
    exact defuzzify_nil

/-- C4 (witness): the fallback evaluated on the empty firing result and at the
concrete input `(0, 0)`, where no rule fires. -/
theorem C4_zero_denominator_fallback_witness :
    defuzzify [] = 0 ∧ FuzzyController.new.compute 0 0 = 0 := by
  refine ⟨C4_zero_denominator_fallback.1 [] defuzz_denominator_nil, ?_⟩
  exact C4_zero_denominator_fallback.2 0 0 (by decide)

/-- The `apply_rules` fold, started from any accumulator, appends exactly the
positive-strength rules, in order. -/
theorem foldl_rule_step_eq (ts hs : List FuzzySet) (rules : List FuzzyRule)
    (acc : List (String × ℚ)) :
    rules.foldl (rule_step ts hs) acc =
      acc ++ rules.filterMap (fun rule =>
        if rule_strength ts hs rule > 0 then
          some (rule.fan_speed_output, rule_strength ts hs rule)
        else none) := by
  induction rules generalizing acc with
  | nil => simp
  | cons r rest ih =>
    rw [List.foldl_cons]
    by_cases hc : rule_strength ts hs r > 0
    · rw [show rule_step ts hs acc r = acc ++ [(r.fan_speed_output, rule_strength ts hs r)] by
        unfold rule_step; rw [if_pos hc]]
      rw [ih, List.filterMap_cons_some (by rw [if_pos hc]), List.append_assoc]
      rfl
    · rw [show rule_step ts hs acc r = acc by unfold rule_step; rw [if_neg hc]]
      rw [ih, List.filterMap_cons_none (by rw [if_neg hc])]

/-- C5: for every pair of fuzzification results and every rule list, the firing
result is exactly the in-order `filterMap` keeping one `(output, strength)`
pair per rule of strictly positive `min`-strength — zero-strength rules are
absent, order is rule-base order — and a label missing from a fuzzification
result is looked up as degree 0 rather than an error. -/
theorem C5_firing_result :
    (∀ (temp_sets humidity_sets : List FuzzySet) (rules : List FuzzyRule),
      apply_rules temp_sets humidity_sets rules =
        rules.filterMap (fun rule =>
          if rule_strength temp_sets humidity_sets rule > 0 then
            some (rule.fan_speed_output, rule_strength temp_sets humidity_sets rule)
          else none)) ∧
    (∀ (sets : List FuzzySet) (label : String),
      sets.find? (fun s => s.name == label) = none →
      lookup_membership sets label = 0) := by
  constructor
  · intro ts hs rules
    rw [apply_rules, foldl_rule_step_eq, List.nil_append]
  · intro sets label hnone
    unfold lookup_membership
    rw [hnone]
    rfl

/-- C5 (witness): the characterization at the concrete input `(10, 10)` (where
exactly rule 1 fires with strength 1), and the degree-0 lookup on a list
missing the label `"Cold"`. -/
theorem C5_firing_result_witness :
    apply_rules (fuzzify_temperature 10) (fuzzify_humidity 10) create_rules =
      create_rules.filterMap (fun rule =>
        if rule_strength (fuzzify_temperature 10) (fuzzify_humidity 10) rule > 0 then
          some (rule.fan_speed_output,
            rule_strength (fuzzify_temperature 10) (fuzzify_humidity 10) rule)
        else none) ∧
    lookup_membership [] "Cold" = 0 := by
  exact ⟨C5_firing_result.1 (fuzzify_temperature 10) (fuzzify_humidity 10) create_rules,
    C5_firing_result.2 [] "Cold" rfl⟩

/-- When every fired label names one of the four fan-speed sets, the source's
aggregation fold coincides with the spec's reference aggregation fold. -/
theorem foldl_aggregate_eq_spec (pairs : List (String × ℚ)) (x acc : ℚ)
    (hvalid : ∀ p ∈ pairs, (fan_speed_sets.find? (fun q => q.1 == p.1)).isSome) :
    pairs.foldl (aggregate_step x) acc =
      pairs.foldl (fun acc p => max acc (min p.2 (fan_set_membership p.1 x))) acc := by
  induction pairs generalizing acc with
  | nil => rfl
  | cons p rest ih =>
    have hp := hvalid p (List.mem_cons_self p rest)
    rw [List.foldl_cons, List.foldl_cons]
    have hstep : aggregate_step x acc p = max acc (min p.2 (fan_set_membership p.1 x)) := by
      unfold aggregate_step fan_set_membership
      rcases hopt : fan_speed_sets.find? (fun q => q.1 == p.1) with _ | ⟨n, a, b, c⟩
      · rw [hopt] at hp
        simp at hp
      · rw [hopt]
    rw [hstep]
    exact ih _ (fun q hq => hvalid q (List.mem_cons_of_mem p hq))

/-- C6: on every genuine firing result (each label names one of the four
fan-speed sets), `defuzzify` equals the reference computation of spec §4.4:
sample points `0, 1, ..., 100`, implied membership `min(strength, set
membership)`, max-aggregation (0 with no pairs), and the ratio of the two
accumulated sums. -/
theorem C6_defuzzify_refines_spec (pairs : List (String × ℚ))
    (hvalid : ∀ p ∈ pairs, (fan_speed_sets.find? (fun q => q.1 == p.1)).isSome) :
    defuzzify pairs = defuzzify_spec pairs := by
  have hagg : ∀ x : ℚ, aggregate_membership pairs x = aggregate_membership_spec pairs x :=
    fun x => foldl_aggregate_eq_spec pairs x 0 hvalid
  unfold defuzzify defuzz_numerator defuzz_denominator defuzzify_spec
  rw [samplePoints_eq]
  simp only [hagg]

/-- C6 (witness): the refinement evaluated on the concrete firing result
`[("Off", 1)]`. -/
theorem C6_defuzzify_refines_spec_witness :
    defuzzify [("Off", 1)] = defuzzify_spec [("Off", 1)] :=
  C6_defuzzify_refines_spec [("Off", 1)] (by decide)

/-- C7: for every rational temperature and humidity — including values far
outside the nominal domains — `compute` totally returns a value in
`[0, 100]`; in this exact-arithmetic embedding there is no failure, NaN or
infinity, and the bounds follow from the sampled domain. -/
theorem C7_compute_bounded (t h : ℚ) :
    0 ≤ FuzzyController.new.compute t h ∧ FuzzyController.new.compute t h ≤ 100 :=
  ⟨defuzzify_nonneg _, defuzzify_le _⟩

/-- C8: every degree produced by `fuzzify_temperature` or `fuzzify_humidity`
lies in `[0, 1]`, for every rational input. -/
theorem C8_degrees_in_unit_interval (t h : ℚ) (s : FuzzySet) :
    (s ∈ fuzzify_temperature t → 0 ≤ s.membership ∧ s.membership ≤ 1) ∧
    (s ∈ fuzzify_humidity h → 0 ≤ s.membership ∧ s.membership ≤ 1) := by
  constructor
  · intro hs
    simp only [fuzzify_temperature, List.mem_cons, List.not_mem_nil, or_false] at hs
    rcases hs with rfl | rfl | rfl
    · exact ⟨trapezoidal_nonneg t 0 0 15 20, trapezoidal_le_one t 0 0 15 20⟩
    · exact ⟨triangular_nonneg t 15 22.5 30, triangular_le_one t 15 22.5 30⟩
    · exact ⟨trapezoidal_nonneg t 25 30 50 50, trapezoidal_le_one t 25 30 50 50⟩
  · intro hs
    simp only [fuzzify_humidity, List.mem_cons, List.not_mem_nil, or_false] at hs
    rcases hs with rfl | rfl | rfl
    · exact ⟨trapezoidal_nonneg h 0 0 30 50, trapezoidal_le_one h 0 0 30 50⟩
    · exact ⟨triangular_nonneg h 30 50 70, triangular_le_one h 30 50 70⟩
    · exact ⟨trapezoidal_nonneg h 50 70 100 100, trapezoidal_le_one h 50 70 100 100⟩

/-- C8 (witness): the bound at temperature 10 on the Cold set (degree 1) and at
humidity 10 on the Low set (degree 1). -/
theorem C8_degrees_in_unit_interval_witness :
    (0 ≤ (FuzzySet.mk "Cold" 1).membership ∧ (FuzzySet.mk "Cold" 1).membership ≤ 1) ∧
    (0 ≤ (FuzzySet.mk "Low" 1).membership ∧ (FuzzySet.mk "Low" 1).membership ≤ 1) := by
  exact ⟨(C8_degrees_in_unit_interval 10 10 ⟨"Cold", 1⟩).1 (by decide),
    (C8_degrees_in_unit_interval 10 10 ⟨"Low", 1⟩).2 (by decide)⟩

/-- Every fan-speed consequent membership is nonnegative: the four fixed sets
are triangles, and an unknown label contributes 0. -/
theorem fan_set_membership_nonneg (label : String) (x : ℚ) :
    0 ≤ fan_set_membership label x := by
  unfold fan_set_membership
  split
  · exact triangular_nonneg _ _ _ _
  · exact le_rfl

/-- Filtering out the zero-strength pairs does not change the aggregation fold,
for any nonnegative accumulator: a zero-strength pair contributes
`max acc (min 0 m) = acc` since every consequent membership `m` is
nonnegative. -/
theorem foldl_aggregate_filter_ne_zero (pairs : List (String × ℚ)) (x acc : ℚ)
    (hacc : 0 ≤ acc) :
    (pairs.filter (fun p => decide (p.2 ≠ 0))).foldl (aggregate_step x) acc =
      pairs.foldl (aggregate_step x) acc := by
  induction pairs generalizing acc with
  | nil => rfl
  | cons p rest ih =>
    by_cases hp : p.2 = 0
    · rw [List.filter_cons_of_neg (by simp [hp]), List.foldl_cons]
      have hstep : aggregate_step x acc p = acc := by
        unfold aggregate_step
        rcases hopt : fan_speed_sets.find? (fun q => q.1 == p.1) with _ | ⟨n, a, b, c⟩
        · rw [hopt]
        · rw [hopt, hp]
          show max acc (min 0 (triangular x a b c)) = acc
          rw [min_eq_left (triangular_nonneg x a b c), max_eq_left hacc]
      rw [hstep]
      exact ih acc hacc
    · rw [List.filter_cons_of_pos (by simp [hp]), List.foldl_cons, List.foldl_cons]
      exact ih _ (aggregate_step_nonneg x acc p hacc)

/-- C9: dropping the zero-strength pairs of a firing result before
defuzzification is behaviorally equivalent to keeping them: `defuzzify` of the
list with every strength-0 pair removed equals `defuzzify` of the full list,
because a zero contribution is a no-op under max-aggregation. -/
theorem C9_zero_strength_pairs_no_op (pairs : List (String × ℚ)) :
    defuzzify (pairs.filter (fun p => decide (p.2 ≠ 0))) = defuzzify pairs := by
  have hagg : ∀ x : ℚ,
      aggregate_membership (pairs.filter (fun p => decide (p.2 ≠ 0))) x =
        aggregate_membership pairs x :=
    fun x => foldl_aggregate_filter_ne_zero pairs x 0 le_rfl
  unfold defuzzify defuzz_numerator defuzz_denominator
  simp only [hagg]

/-- C10: a pair whose label names none of the four fan-speed sets is silently
skipped by `defuzzify` — inserting it anywhere in a firing result changes
nothing and raises no error. -/
theorem C10_unknown_label_skipped (pre post : List (String × ℚ)) (label : String)
    (s : ℚ) (hnone : fan_speed_sets.find? (fun q => q.1 == label) = none) :
    defuzzify (pre ++ (label, s) :: post) = defuzzify (pre ++ post) := by
  have hstep : ∀ acc x : ℚ, aggregate_step x acc (label, s) = acc := by
    intro acc x
    unfold aggregate_step
    rw [hnone]
  have hagg : ∀ x : ℚ,
      aggregate_membership (pre ++ (label, s) :: post) x =
        aggregate_membership (pre ++ post) x := by
    intro x
    unfold aggregate_membership
    rw [List.foldl_append, List.foldl_append, List.foldl_cons, hstep]
  unfold defuzzify defuzz_numerator defuzz_denominator
  simp only [hagg]

/-- C10 (witness): inserting the unknown label `"Oops"` into the empty firing
result leaves the defuzzified output unchanged. -/
theorem C10_unknown_label_skipped_witness :
    defuzzify [("Oops", 1)] = defuzzify [] :=
  C10_unknown_label_skipped [] [] "Oops" 1 (by decide)

end FuzzyFan
